import Mathlib

/-!
Shallow embedding of the liniya rendering pipeline (frustum clipping, camera
projection, adaptive segment subdivision, occlusion visitor, path assembly)
over exact rational arithmetic, together with proofs about the embedded code.

Source files embedded: src/frustum.rs, src/camera.rs, src/util.rs,
src/scene/scene.rs, src/scene/visitors.rs.  The source computes with f64;
here every quantity is a rational number, and the few comparisons the source
performs through square roots (plane-parallelism test, screen-distance
threshold, ceiling of a square root) are rendered by their exact squared
equivalents, noted at each definition.
-/

/-- Three-dimensional point or vector (nalgebra `Point3<f64>` /
`Vector3<f64>`), over ℚ. -/
structure V3 where
  x : ℚ
  y : ℚ
  z : ℚ
deriving DecidableEq, Repr

/-- Two-dimensional point (nalgebra `Point2<f64>`), over ℚ. -/
structure P2 where
  x : ℚ
  y : ℚ
deriving DecidableEq, Repr

/-- Homogeneous 4-vector (nalgebra `Vector4<f64>`), over ℚ. -/
structure V4 where
  x : ℚ
  y : ℚ
  z : ℚ
  w : ℚ
deriving DecidableEq, Repr

instance : Add V3 := ⟨fun a b => ⟨a.x + b.x, a.y + b.y, a.z + b.z⟩⟩

instance : Sub V3 := ⟨fun a b => ⟨a.x - b.x, a.y - b.y, a.z - b.z⟩⟩

instance : SMul ℚ V3 := ⟨fun c v => ⟨c * v.x, c * v.y, c * v.z⟩⟩

instance : Sub P2 := ⟨fun a b => ⟨a.x - b.x, a.y - b.y⟩⟩

instance : Add V4 := ⟨fun a b => ⟨a.x + b.x, a.y + b.y, a.z + b.z, a.w + b.w⟩⟩

instance : Sub V4 := ⟨fun a b => ⟨a.x - b.x, a.y - b.y, a.z - b.z, a.w - b.w⟩⟩

instance : SMul ℚ V4 := ⟨fun c v => ⟨c * v.x, c * v.y, c * v.z, c * v.w⟩⟩

/-- Dot product of 3-vectors. -/
def dot3 (a b : V3) : ℚ := a.x * b.x + a.y * b.y + a.z * b.z

/-- Dot product of 4-vectors. -/
def dot4 (a b : V4) : ℚ := a.x * b.x + a.y * b.y + a.z * b.z + a.w * b.w

/-- Part `xyz` of a homogeneous vector (`Vector4::xyz()`). -/
def V4.xyz (v : V4) : V3 := ⟨v.x, v.y, v.z⟩

/-- Extension of a 3d point to homogeneous coordinates with w = 1. -/
def toH (v : V3) : V4 := ⟨v.x, v.y, v.z, 1⟩

/-- Projection dropping the z coordinate (`Point3::xy()`). -/
def V3.xy (v : V3) : P2 := ⟨v.x, v.y⟩

/-- Squared norm of a 2d vector (`Vector2::norm_squared`). -/
def normSq2 (v : P2) : ℚ := v.x * v.x + v.y * v.y

/-- Epsilon 1e-5 used throughout `frustum.rs`. -/
def epsQ : ℚ := 1 / 100000

/-- Parametric point of a segment, `p0 + (p1 - p0) * t`. -/
def lerp (p0 p1 : V3) (t : ℚ) : V3 := p0 + t • (p1 - p0)

/-- Collection of planes forming a convex region (`Frustum`,
src/frustum.rs).  The source stores an array of 6 planes; the list keeps
the fixed order Left, Right, Bottom, Top, Near, Far. -/
structure Frustum where
  planes : List V4
deriving DecidableEq, Repr

/-- Test `Frustum::is_point_in` (src/frustum.rs lines 96-100): the point
extended with w = 1 has a nonnegative dot product with every plane. -/
def Frustum.is_point_in (F : Frustum) (v : V3) : Prop :=
  ∀ p ∈ F.planes, 0 ≤ dot4 p (toH v)

instance (F : Frustum) (v : V3) : Decidable (F.is_point_in v) := by
  unfold Frustum.is_point_in; infer_instance

/-- Test `Frustum::is_point_in_or_on` (src/frustum.rs lines 102-106). -/
def Frustum.is_point_in_or_on (F : Frustum) (v : V3) (e : ℚ) : Prop :=
  ∀ p ∈ F.planes, -e ≤ dot4 p (toH v)

instance (F : Frustum) (v : V3) (e : ℚ) : Decidable (F.is_point_in_or_on v e) := by
  unfold Frustum.is_point_in_or_on; infer_instance

/-- Function `plane_segment_directed_intersection` (src/frustum.rs lines
54-67).  The source rejects near-parallel segments when
`|v·n| / ‖v‖ < 1e-5`; with ‖v‖ > 0 this is exactly `(v·n)² < ε²·(v·v)`, the
first branch.  When the direction is the zero vector the f64 quotient is
NaN, the comparison is false, and the returned t is non-finite, so it is
discarded by the t ∈ [0,1] filter of the caller; the second branch returns
`none` for that case, which is observationally the same for every caller. -/
def plane_segment_directed_intersection (plane : V4) (p0 p1 : V3) : Option ℚ :=
  let v := p1 - p0
  let pn := plane.xyz
  let vd := dot3 v pn
  if vd ^ 2 < epsQ ^ 2 * dot3 v v then none
  else if vd = 0 then none
  else some ((plane.w + dot3 p0 pn) / (-vd))

/-- Ascending stable insertion into a sorted list. -/
def insertAsc (a : ℚ) : List ℚ → List ℚ
  | [] => [a]
  | b :: bs => if a ≤ b then a :: b :: bs else b :: insertAsc a bs

/-- Ascending stable sort; models `isects.sort_by(cmp)` of src/frustum.rs
lines 129-138, whose comparator is the usual ascending order. -/
def sortAsc (l : List ℚ) : List ℚ := l.foldr insertAsc []

/-- Sorted plane-crossing parameters of a segment with t ∈ [0,1]
(`clip_line`, src/frustum.rs lines 117-138): a `filter_map` producing the
plane intersections followed by a `filter_map` keeping t ∈ [0,1], then the
ascending sort. -/
def segIsects (F : Frustum) (p0 p1 : V3) : List ℚ :=
  sortAsc (F.planes.filterMap fun pl =>
    match plane_segment_directed_intersection pl p0 p1 with
    | none => none
    | some t => if 0 ≤ t ∧ t ≤ 1 then some t else none)

/-- Crossing points lying on the frustum boundary within epsilon
(`clip_line`, src/frustum.rs lines 156-167). -/
def points_on_frustum (F : Frustum) (p0 p1 : V3) : List V3 :=
  (segIsects F p0 p1).filterMap fun t =>
    let p := lerp p0 p1 t
    if F.is_point_in_or_on p epsQ then some p else none

/-- Sub-cases of a Partial clip (source enum `ClipResultPartial`, src/frustum.rs). -/
inductive ClipResultPart
  | PrefixPart
  | SuffixPart
  | InfixPart
deriving DecidableEq, Repr

/-- Result of clipping a line segment (`ClipResult`, src/frustum.rs). -/
inductive ClipRes
  | Outside
  | Inside (a b : V3)
  | PartialRes (k : ClipResultPart) (a b : V3)
deriving DecidableEq, Repr

/-- Panics `clip_line` can raise: indexing `isects[0]` on an empty vector,
`isects.last().unwrap()` on an empty vector, and the explicit panic for
more than two on-frustum intersections. -/
inductive ClipLineErr
  | indexOut
  | unwrapNone
  | tooMany
deriving DecidableEq, Repr

/-- Last element of a list (`Vec::last`). -/
def lastOpt : List ℚ → Option ℚ
  | [] => none
  | [t] => some t
  | _ :: t :: ts => lastOpt (t :: ts)

/-- Method `Frustum::clip_line` (src/frustum.rs lines 109-178).  Panics are
modelled as `Except.error`. -/
def clip_line (F : Frustum) (p0 p1 : V3) : Except ClipLineErr ClipRes :=
  if F.is_point_in p0 ∧ F.is_point_in p1 then .ok (.Inside p0 p1)
  else if F.is_point_in p0 then
    match segIsects F p0 p1 with
    | [] => .error .indexOut
    | t :: _ => .ok (.PartialRes .PrefixPart p0 (lerp p0 p1 t))
  else if F.is_point_in p1 then
    match lastOpt (segIsects F p0 p1) with
    | none => .error .unwrapNone
    | some t => .ok (.PartialRes .SuffixPart (lerp p0 p1 t) p1)
  else
    match points_on_frustum F p0 p1 with
    | [a, b] => .ok (.PartialRes .InfixPart a b)
    | [] => .ok .Outside
    | [_] => .ok .Outside
    | _ => .error .tooMany

/-- Row-major 4x4 matrix (nalgebra `Matrix4<f64>`), over ℚ. -/
structure M4 where
  r0 : V4
  r1 : V4
  r2 : V4
  r3 : V4
deriving DecidableEq, Repr

/-- Matrix-vector product. -/
def M4.mulVec (m : M4) (v : V4) : V4 :=
  ⟨dot4 m.r0 v, dot4 m.r1 v, dot4 m.r2 v, dot4 m.r3 v⟩

/-- Six raw (un-normalized) frustum planes of a clip matrix, in the fixed
order Left, Right, Bottom, Top, Near, Far (`Frustum::from_clip_matrix`,
src/frustum.rs lines 76-94: `mt.column(i)` is row i of `m`). -/
def rawPlanes (m : M4) : List V4 :=
  [m.r3 + m.r0, m.r3 - m.r0, m.r3 + m.r1, m.r3 - m.r1, m.r3 + m.r2, m.r3 - m.r2]

/-- Method `Frustum::from_clip_matrix` divides each raw plane by the f64
norm of its xyz part; here the caller supplies the six norms `ns`
explicitly (for the cameras in this file they are rational), and `normsOk`
checks that each supplied value is the true norm. -/
def fromClipMatrixNorms (m : M4) (ns : List ℚ) : Frustum :=
  ⟨(rawPlanes m).zipWith (fun p n => (1 / n) • p) ns⟩

/-- Validity of a list of norms for the raw planes of `m`: six of them,
positive, and squaring to the squared norm of the plane normal. -/
def normsOk (m : M4) (ns : List ℚ) : Prop :=
  ns.length = 6 ∧
  ∀ pn ∈ (rawPlanes m).zip ns, 0 < pn.2 ∧ pn.2 ^ 2 = dot3 pn.1.xyz pn.1.xyz

instance (m : M4) (ns : List ℚ) : Decidable (normsOk m ns) := by
  unfold normsOk; infer_instance

/-- Matrix of nalgebra `Orthographic3::new(-hw, hw, -hh, hh, znear, zfar)`
as used by `Camera::ortho` (src/camera.rs lines 65-76). -/
def orthoMatrix (hw hh znear zfar : ℚ) : M4 :=
  ⟨⟨1 / hw, 0, 0, 0⟩,
   ⟨0, 1 / hh, 0, 0⟩,
   ⟨0, 0, -2 / (zfar - znear), -(zfar + znear) / (zfar - znear)⟩,
   ⟨0, 0, 0, 1⟩⟩

/-- Clip matrix of the box-shaped orthographic frustum of half-extent 2
centered at the origin: `Camera::ortho(2, 2, -2, 2)` with the identity view
transform. -/
def orthoClipM : M4 := orthoMatrix 2 2 (-2) 2

/-- Norms (rational here) of the six raw planes of `orthoClipM`. -/
def orthoNorms : List ℚ := [1/2, 1/2, 1/2, 1/2, 1/2, 1/2]

/-- Frustum of the half-extent-2 orthographic camera. -/
def orthoFrustum : Frustum := fromClipMatrixNorms orthoClipM orthoNorms

/-- Result of testing a box against a plane (`BoxPlaneTest`,
src/util.rs). -/
inductive BoxPlaneTest
  | Inside
  | Intersects
  | Outside
deriving DecidableEq, Repr

/-- Axis-aligned bounding box (ncollide3d `AABB<f64>`), stored as its two
extremal corners. -/
structure AABBQ where
  mins : V3
  maxs : V3
deriving DecidableEq, Repr

/-- Center of an AABB (ncollide `AABB::center`). -/
def AABBQ.center (bb : AABBQ) : V3 := ((1 : ℚ)/2) • (bb.mins + bb.maxs)

/-- Half extents of an AABB (ncollide `AABB::half_extents`). -/
def AABBQ.half_extents (bb : AABBQ) : V3 := ((1 : ℚ)/2) • (bb.maxs - bb.mins)

/-- Componentwise absolute value (`Vector3::abs`). -/
def V3.abs3 (v : V3) : V3 := ⟨|v.x|, |v.y|, |v.z|⟩

/-- Function `box_plane_intersection` (src/util.rs lines 17-32):
position of the bounding box relative to the plane, assuming a unit plane
normal. -/
def box_plane_intersection (bb : AABBQ) (plane : V4) : BoxPlaneTest :=
  let n := plane.xyz
  let pos := bb.center
  let he := bb.half_extents
  let r := dot3 n.abs3 he
  let s := dot3 n pos + plane.w
  if s < -r then .Outside
  else if r < s then .Inside
  else .Intersects

/-- Loop body of `Camera::is_aabb_visible` (src/camera.rs lines 175-190):
walk the planes in order; an `Inside` test continues, an `Intersects` test
returns true immediately, an `Outside` test returns false; if all planes
are `Inside`, return true. -/
def visitPlanes (bb : AABBQ) : List V4 → Bool
  | [] => true
  | p :: rest =>
    match box_plane_intersection bb p with
    | .Inside => visitPlanes bb rest
    | .Intersects => true
    | .Outside => false

/-- Method `Camera::is_aabb_visible` (src/camera.rs lines 175-190),
expressed on the camera frustum it reads. -/
def is_aabb_visible (F : Frustum) (bb : AABBQ) : Bool :=
  visitPlanes bb F.planes

/-- Row-major 3x3 matrix: the rotation part of an nalgebra
`Isometry3<f64>`. -/
structure M3 where
  r0 : V3
  r1 : V3
  r2 : V3
deriving DecidableEq, Repr

/-- Matrix-vector product. -/
def M3.mulVec (m : M3) (v : V3) : V3 := ⟨dot3 m.r0 v, dot3 m.r1 v, dot3 m.r2 v⟩

/-- Transpose of a 3x3 matrix. -/
def M3.transpose (m : M3) : M3 :=
  ⟨⟨m.r0.x, m.r1.x, m.r2.x⟩, ⟨m.r0.y, m.r1.y, m.r2.y⟩, ⟨m.r0.z, m.r1.z, m.r2.z⟩⟩

/-- Identity 3x3 matrix. -/
def M3.idm : M3 := ⟨⟨1, 0, 0⟩, ⟨0, 1, 0⟩, ⟨0, 0, 1⟩⟩

/-- Identity 4x4 matrix. -/
def M4.idm : M4 :=
  ⟨⟨1, 0, 0, 0⟩, ⟨0, 1, 0, 0⟩, ⟨0, 0, 1, 0⟩, ⟨0, 0, 0, 1⟩⟩

/-- `Camera` (src/camera.rs lines 10-23): view isometry (rotation and
translation), projection matrix, derived frustum and screen resolution.
nalgebra computes the inverse of the projection on demand inside
`unproject`; the model stores it as the field `Pinv` (theorems about
`unproject` carry the hypothesis that it is a true inverse). -/
structure Camera where
  R : M3
  t : V3
  P : M4
  Pinv : M4
  frustum : Frustum
  resolution : ℚ

/-- Application of the view isometry to a point
(`Isometry3::transform_point`). -/
def viewTransform (cam : Camera) (p : V3) : V3 := cam.R.mulVec p + cam.t

/-- Application of the inverse view isometry
(`Isometry3::inverse_transform_point`): the inverse rotation of a rotation
matrix is its transpose. -/
def viewInvTransform (cam : Camera) (q : V3) : V3 :=
  cam.R.transpose.mulVec (q - cam.t)

/-- Application of a projective matrix to a point with the homogeneous
divide (nalgebra `Projective3::transform_point`). -/
def projTransformPoint (m : M4) (p : V3) : V3 :=
  let v := m.mulVec (toH p)
  ⟨v.x / v.w, v.y / v.w, v.z / v.w⟩

/-- Method `Camera::project_3d` (src/camera.rs lines 204-210): view
transform into camera space, then projection to NDC. -/
def Camera.project_3d (cam : Camera) (p : V3) : V3 :=
  projTransformPoint cam.P (viewTransform cam p)

/-- Method `Camera::unproject` (src/camera.rs lines 198-201): inverse
projection, then inverse view transform. -/
def Camera.unproject (cam : Camera) (q : V3) : V3 :=
  viewInvTransform cam (projTransformPoint cam.Pinv q)

/-- Least natural number `n` with `q ≤ n²`, by linear search from below;
`fuel` bounds the search and `n` is the search start. -/
def ceilSqrtGo (q : ℚ) : ℕ → ℕ → ℕ
  | 0, n => n
  | fuel + 1, n => if q ≤ (n : ℚ) ^ 2 then n else ceilSqrtGo q fuel (n + 1)

/-- Least natural number `n` with `q ≤ n²` (the fuel `q.num.toNat + 1`
always suffices, see `ceilSqrtQ_spec`).  For `0 < r` and `0 ≤ d`,
`ceilSqrtQ (d / r²)` is exactly `(sqrt(d) / r).ceil()` of the source,
since `sqrt d / r ≤ n ↔ d / r² ≤ n²`. -/
def ceilSqrtQ (q : ℚ) : ℕ := ceilSqrtGo q (q.num.toNat + 1) 0

/-- Function `split_segment_adaptive` (src/scene/scene.rs lines 117-144).
Returns (world samples, projected samples).  `dist_2d > sres` is tested by
the source on squares, and `n = (dist_2d / sres).ceil()` is rendered
exactly as `ceilSqrtQ (dist_2d_sq / sres²)`.  The source closes with a
debug assertion (`assert_relative_eq`) that the unprojected samples are
collinear in 3d; that f64-relative check does not affect the returned
value and is omitted here. -/
def split_segment_adaptive (cam : Camera) (p0 p1 : V3) : List V3 × List V3 :=
  let projP0 := cam.project_3d p0
  let projP1 := cam.project_3d p1
  let dist2dSq := normSq2 (projP0.xy - projP1.xy)
  let sres := cam.resolution
  let projSegments :=
    if sres * sres < dist2dSq then
      let n := ceilSqrtQ (dist2dSq / (sres * sres))
      (List.range (n + 1)).map fun i : ℕ => projP0 + ((i : ℚ) / (n : ℚ)) • (projP1 - projP0)
    else [projP0, projP1]
  (projSegments.map fun p => cam.unproject p, projSegments)

/-- An output polyline in NDC (`RenderPath`, src/scene/scene.rs). -/
abbrev RenderPath := List P2

/-- An input 3d path (`Path`, src/shape.rs). -/
abbrev Path3 := List V3

/-- State of the path being built (`SegmentPathState`,
src/scene/scene.rs lines 69-82). -/
inductive SegmentPathState
  | Empty
  | Started (path : RenderPath)
  | Continuing (path : RenderPath)
deriving DecidableEq, Repr

/-- Replacement of the last element (`*path.last_mut().unwrap() = p`).
On the empty list the source would panic on the unwrap; that state is
unreachable from the renderer, and the model returns the list unchanged. -/
def setLast (p : P2) : List P2 → List P2
  | [] => []
  | [_] => [p]
  | a :: b :: rest => a :: setLast p (b :: rest)

/-- Method `SegmentPathState::update` (src/scene/scene.rs lines 89-105):
react to a new point, `none` meaning a point that is not visible. -/
def SegmentPathState.update :
    SegmentPathState → Option P2 → SegmentPathState × Option RenderPath
  | .Empty, some p => (.Started [p], none)
  | .Empty, none => (.Empty, none)
  | .Started path, some p => (.Continuing (path ++ [p]), none)
  | .Started path, none => (.Empty, some path)
  | .Continuing path, some p => (.Continuing (setLast p path), none)
  | .Continuing path, none => (.Empty, some path)

/-- Method `SegmentPathState::into_path` (src/scene/scene.rs lines
107-114). -/
def SegmentPathState.into_path : SegmentPathState → Option RenderPath
  | .Started path => some path
  | .Continuing path => some path
  | .Empty => none

/-- Emission step of `Scene::render_segment_adaptive` (src/scene/scene.rs
lines 192-196): a finished path is pushed onto the output only when it has
more than one point. -/
def emitFinished (paths : List RenderPath) (fin : Option RenderPath) : List RenderPath :=
  match fin with
  | some fp => if 1 < fp.length then paths ++ [fp] else paths
  | none => paths

/-- Sample loop of `Scene::render_segment_adaptive` (src/scene/scene.rs
lines 184-198).  `vis` abstracts `Scene::is_point_visible` (the occlusion
query against the spatial index, applied to the world sample and its
projection); every theorem below holds for an arbitrary `vis`. -/
def renderLoop (vis : V3 → V3 → Bool) :
    List (V3 × V3) → SegmentPathState → List RenderPath →
      List RenderPath × SegmentPathState
  | [], st, paths => (paths, st)
  | (pt, projPt) :: rest, st, paths =>
    let isVisible := vis pt projPt
    let su := st.update (if isVisible then some projPt.xy else none)
    renderLoop vis rest su.1 (emitFinished paths su.2)

/-- Method `Scene::render_segment_adaptive` (src/scene/scene.rs lines
167-200): split the segment adaptively, then run the sample loop, skipping
the first sample when a non-empty path is carried in. -/
def render_segment_adaptive (vis : V3 → V3 → Bool) (cam : Camera) (p0 p1 : V3)
    (paths : List RenderPath) (currPath : Option RenderPath) :
    List RenderPath × Option RenderPath :=
  let sp := split_segment_adaptive cam p0 p1
  let start : ℕ × SegmentPathState :=
    match currPath with
    | some p => if p.isEmpty then (0, .Empty) else (1, .Started p)
    | none => (0, .Empty)
  let res := renderLoop vis ((sp.1.zip sp.2).drop start.1) start.2 paths
  (res.1, res.2.into_path)

/-- Failures of `Camera::clip_path`: a propagated `clip_line` panic, the
three assertions guarding the Outside/Infix/Suffix match arms, and the
trailing assertion that a non-empty accumulator has more than one point. -/
inductive ClipPathErr
  | lineErr (e : ClipLineErr)
  | assertOutsideFail
  | assertInfixFail
  | assertSuffixFail
  | assertTrailingFail
deriving DecidableEq, Repr

/-- Loop of `Camera::clip_path` (src/camera.rs lines 101-157) over the
consecutive segment pairs, carrying the current path accumulator and the
finished clipped paths.  `assert!` failures are modelled as errors. -/
def clipPathGo (F : Frustum) :
    V3 → List V3 → Path3 → List Path3 → Except ClipPathErr (List Path3)
  | _, [], acc, out =>
    if acc.isEmpty then .ok out
    else if 1 < acc.length then .ok (out ++ [acc])
    else .error .assertTrailingFail
  | prev, q :: rest, acc, out =>
    match clip_line F prev q with
    | .error e => .error (.lineErr e)
    | .ok .Outside =>
      if acc.isEmpty then clipPathGo F q rest acc out
      else .error .assertOutsideFail
    | .ok (.Inside a b) =>
      clipPathGo F q rest ((if acc.isEmpty then acc ++ [a] else acc) ++ [b]) out
    | .ok (.PartialRes .InfixPart a b) =>
      if acc.isEmpty then clipPathGo F q rest acc (out ++ [[a, b]])
      else .error .assertInfixFail
    | .ok (.PartialRes .SuffixPart a b) =>
      if acc.isEmpty then clipPathGo F q rest [a, b] out
      else .error .assertSuffixFail
    | .ok (.PartialRes .PrefixPart a b) =>
      clipPathGo F q rest [] (out ++ [(if acc.isEmpty then acc ++ [a] else acc) ++ [b]])

/-- Method `Camera::clip_path` (src/camera.rs lines 96-160): paths with
fewer than two points yield no clipped paths; otherwise the loop walks the
consecutive pairs. -/
def clip_path (F : Frustum) (path : Path3) : Except ClipPathErr (List Path3) :=
  match path with
  | p :: q :: rest => clipPathGo F p (q :: rest) [] []
  | _ => .ok []

/-- Per-clipped-path loop of `Scene::render_path` (src/scene/scene.rs
lines 238-251): thread the in-progress render path through the consecutive
point pairs. -/
def renderSegments (vis : V3 → V3 → Bool) (cam : Camera) :
    V3 → List V3 → List RenderPath → Option RenderPath →
      List RenderPath × Option RenderPath
  | _, [], paths, curr => (paths, curr)
  | prev, q :: rest, paths, curr =>
    let r := render_segment_adaptive vis cam prev q paths curr
    renderSegments vis cam q rest r.1 r.2

/-- Body of `Scene::render_path` for one clipped path (src/scene/scene.rs
lines 238-257), including the final flush that keeps the trailing path
only when it has at least two points. -/
def renderClipped (vis : V3 → V3 → Bool) (cam : Camera) (all : List RenderPath)
    (cp : Path3) : List RenderPath :=
  match cp with
  | [] => all
  | x :: rest =>
    let res := renderSegments vis cam x rest all none
    match res.2 with
    | some p => if 2 ≤ p.length then res.1 ++ [p] else res.1
    | none => res.1

/-- Method `Scene::render_path` (src/scene/scene.rs lines 234-260): clip
the path against the camera frustum, then render each clipped sub-path
adaptively.  `vis` abstracts the occlusion query `Scene::is_point_visible`
as in `renderLoop`. -/
def render_path (vis : V3 → V3 → Bool) (cam : Camera) (path : Path3) :
    Except ClipPathErr (List RenderPath) :=
  match clip_path cam.frustum path with
  | .error e => .error e
  | .ok clipped => .ok (clipped.foldl (renderClipped vis cam) [])

/-- A ray with origin and direction (ncollide `Ray<f64>`). -/
structure RayQ where
  origin : V3
  dir : V3
deriving DecidableEq, Repr

/-- An intersection record (`Intersection`, src/shape.rs): time of impact
along the ray and the struck point. -/
structure InterQ where
  t : ℚ
  point : V3
deriving DecidableEq, Repr

/-- A shape as the occlusion visitor consumes it: the `Shape` trait object
reduced to its `intersect(ray, max_toi)` capability (src/shape.rs). -/
structure ShapeM where
  intersect : RayQ → ℚ → Option InterQ

/-- Ray cast against an AABB, modelled from ncollide3d
(`AABB::toi_with_ray` with `solid = true`, a library dependency of
src/scene/visitors.rs): slab intersection of the ray parameter interval
with the box, clamped to `[0, max_toi]`; the result is the first parameter
of the clamped interval, so a ray starting inside the box gets TOI 0.  A
zero direction component accepts the axis exactly when the origin lies
within that slab, matching the f64 division-by-zero behaviour. -/
def aabbToi (bb : AABBQ) (ray : RayQ) (maxToi : ℚ) : Option ℚ :=
  let axes : List (ℚ × ℚ × ℚ × ℚ) :=
    [(bb.mins.x, bb.maxs.x, ray.origin.x, ray.dir.x),
     (bb.mins.y, bb.maxs.y, ray.origin.y, ray.dir.y),
     (bb.mins.z, bb.maxs.z, ray.origin.z, ray.dir.z)]
  let iv := axes.foldl (fun iv ax =>
    match iv, ax with
    | none, _ => none
    | some (lo, hi), (mn, mx, o, d) =>
      if d = 0 then
        if o < mn ∨ mx < o then none else some (lo, hi)
      else
        let t1 := (mn - o) / d
        let t2 := (mx - o) / d
        let lo2 := max lo (min t1 t2)
        let hi2 := min hi (max t1 t2)
        if hi2 < lo2 then none else some (lo2, hi2)) (some (0, maxToi))
  iv.map Prod.fst

/-- Status returned by a best-first visitor (ncollide
`BestFirstVisitStatus`). -/
inductive BFStatus
  | ContinueBF (cost : ℚ) (result : Option Bool)
  | ExitEarly (result : Option Bool)
  | Stop
deriving Repr

/-- Method `SceneOcclusionVisitor::visit` (src/scene/visitors.rs lines
91-131): compute the ray TOI of the bounding volume (stop if the ray misses);
at a leaf whose bounding volume TOI beats the best cost so far, intersect
the shape, and exit early with a negative (occluded) result when the
TOI of the intersection is below the target TOI. -/
def occVisit (ray : RayQ) (targetToi maxToi : ℚ) (best : ℚ) (bv : AABBQ)
    (data : Option ShapeM) : BFStatus :=
  match aabbToi bv ray maxToi with
  | some roughToi =>
    let res := BFStatus.ContinueBF roughToi (some true)
    match data with
    | some shape =>
      if roughToi < best then
        match shape.intersect ray maxToi with
        | some result =>
          if result.t < targetToi then .ExitEarly (some false)
          else .ContinueBF result.t (some true)
        | none => res
      else res
    | none => res
  | none => .Stop

/-- Matrix product of 3x3 matrices. -/
def M3.mul (a b : M3) : M3 :=
  ⟨b.transpose.mulVec a.r0, b.transpose.mulVec a.r1, b.transpose.mulVec a.r2⟩

/-- Column of a 4x4 matrix. -/
def M4.c0 (m : M4) : V4 := ⟨m.r0.x, m.r1.x, m.r2.x, m.r3.x⟩

/-- Column of a 4x4 matrix. -/
def M4.c1 (m : M4) : V4 := ⟨m.r0.y, m.r1.y, m.r2.y, m.r3.y⟩

/-- Column of a 4x4 matrix. -/
def M4.c2 (m : M4) : V4 := ⟨m.r0.z, m.r1.z, m.r2.z, m.r3.z⟩

/-- Column of a 4x4 matrix. -/
def M4.c3 (m : M4) : V4 := ⟨m.r0.w, m.r1.w, m.r2.w, m.r3.w⟩

/-- Matrix product of 4x4 matrices. -/
def M4.mul (a b : M4) : M4 :=
  ⟨⟨dot4 a.r0 b.c0, dot4 a.r0 b.c1, dot4 a.r0 b.c2, dot4 a.r0 b.c3⟩,
   ⟨dot4 a.r1 b.c0, dot4 a.r1 b.c1, dot4 a.r1 b.c2, dot4 a.r1 b.c3⟩,
   ⟨dot4 a.r2 b.c0, dot4 a.r2 b.c1, dot4 a.r2 b.c2, dot4 a.r2 b.c3⟩,
   ⟨dot4 a.r3 b.c0, dot4 a.r3 b.c1, dot4 a.r3 b.c2, dot4 a.r3 b.c3⟩⟩

/-- Homogeneous w-coordinate produced when projecting a world point: the
scalar `project_3d` divides by.  Within the valid depth range of the
camera it is nonzero. -/
def projW (cam : Camera) (p : V3) : ℚ :=
  (cam.P.mulVec (toH (viewTransform cam p))).w

/-- Inverse of the orthographic clip matrix `orthoClipM`. -/
def orthoClipMInv : M4 :=
  ⟨⟨2, 0, 0, 0⟩, ⟨0, 2, 0, 0⟩, ⟨0, 0, -2, 0⟩, ⟨0, 0, 0, 1⟩⟩

/-- The half-extent-2 orthographic camera with the identity view transform
and resolution 1/2. -/
def orthoCam : Camera :=
  { R := M3.idm, t := ⟨0, 0, 0⟩, P := orthoClipM, Pinv := orthoClipMInv,
    frustum := orthoFrustum, resolution := 1/2 }

/-- The same camera with the coarse resolution 10 (no subdivision for
short segments). -/
def orthoCamCoarse : Camera :=
  { R := M3.idm, t := ⟨0, 0, 0⟩, P := orthoClipM, Pinv := orthoClipMInv,
    frustum := orthoFrustum, resolution := 10 }

/-- Concrete ray for the occlusion counterexample: origin at the world
origin, unit direction along x. -/
def rayC1 : RayQ := ⟨⟨0, 0, 0⟩, ⟨1, 0, 0⟩⟩

/-- Concrete bounding volume containing the ray origin. -/
def bvC1 : AABBQ := ⟨⟨-1, -1, -1⟩, ⟨2, 2, 2⟩⟩

/-- Concrete intersection whose TOI is exactly `target_toi - 1e-5` for the
target TOI 1. -/
def interC1 : InterQ := ⟨99999/100000, ⟨99999/100000, 0, 0⟩⟩

/-- Concrete shape whose ray intersection is `interC1`. -/
def shapeC1 : ShapeM := ⟨fun _ _ => some interC1⟩

/-- Concrete box straddling the Left plane of `orthoFrustum` while lying
strictly outside its Bottom plane: center (0,-10,0), half extents
(5,1,1). -/
def boxC5 : AABBQ := ⟨⟨-5, -11, -1⟩, ⟨5, -9, 1⟩⟩

/-! ## Theorems -/

@[simp] theorem V3.add_mk3 (a b c d e f : ℚ) :
    (⟨a, b, c⟩ + ⟨d, e, f⟩ : V3) = ⟨a + d, b + e, c + f⟩ := rfl

@[simp] theorem V3.sub_mk3 (a b c d e f : ℚ) :
    (⟨a, b, c⟩ - ⟨d, e, f⟩ : V3) = ⟨a - d, b - e, c - f⟩ := rfl

@[simp] theorem V3.smul_mk3 (t a b c : ℚ) :
    (t • (⟨a, b, c⟩ : V3)) = (⟨t * a, t * b, t * c⟩ : V3) := rfl

@[simp] theorem P2.sub_mk2 (a b c d : ℚ) :
    (⟨a, b⟩ - ⟨c, d⟩ : P2) = ⟨a - c, b - d⟩ := rfl

@[simp] theorem V4.add_mk4 (a b c d e f g h : ℚ) :
    (⟨a, b, c, d⟩ + ⟨e, f, g, h⟩ : V4) = ⟨a + e, b + f, c + g, d + h⟩ := rfl

@[simp] theorem V4.sub_mk4 (a b c d e f g h : ℚ) :
    (⟨a, b, c, d⟩ - ⟨e, f, g, h⟩ : V4) = ⟨a - e, b - f, c - g, d - h⟩ := rfl

@[simp] theorem V4.smul_mk4 (t a b c d : ℚ) :
    (t • (⟨a, b, c, d⟩ : V4)) = (⟨t * a, t * b, t * c, t * d⟩ : V4) := rfl


/-- The supplied norms for the orthographic frustum are the true plane
normal norms, so `orthoFrustum` is exactly `Frustum::from_clip_matrix`
applied to the orthographic clip matrix. -/
theorem orthoNorms_are_norms : normsOk orthoClipM orthoNorms := by
  norm_num [normsOk, rawPlanes, orthoClipM, orthoMatrix, orthoNorms, dot3, V4.xyz]

/-- C2: for the orthographic frustum of half-extent 2 centered at the
origin, `clip_line` on (-5,0,0)-(5,0,0) returns Partial/Infix with clip
points at x = -2 and x = 2; on (-1,0,0)-(1,0,0) it returns Inside with
both endpoints unchanged; and on (5,0,0)-(6,0,0) it returns Outside. -/
theorem clip_line_ortho_cases :
    clip_line orthoFrustum ⟨-5, 0, 0⟩ ⟨5, 0, 0⟩ =
        .ok (.PartialRes .InfixPart ⟨-2, 0, 0⟩ ⟨2, 0, 0⟩) ∧
    clip_line orthoFrustum ⟨-1, 0, 0⟩ ⟨1, 0, 0⟩ =
        .ok (.Inside ⟨-1, 0, 0⟩ ⟨1, 0, 0⟩) ∧
    clip_line orthoFrustum ⟨5, 0, 0⟩ ⟨6, 0, 0⟩ = .ok .Outside := by
  refine ⟨?_, ?_, ?_⟩
  · norm_num [clip_line, orthoFrustum, fromClipMatrixNorms, rawPlanes, orthoClipM,
      orthoMatrix, orthoNorms, Frustum.is_point_in, Frustum.is_point_in_or_on,
      segIsects, points_on_frustum, plane_segment_directed_intersection, sortAsc,
      insertAsc, lastOpt, lerp, dot3, dot4, V4.xyz, toH, epsQ,
      List.filterMap_cons, List.filterMap_nil, List.foldr_cons, List.foldr_nil,
      List.zipWith_cons_cons, List.zipWith_nil_right, List.zipWith_nil_left]
  · norm_num [clip_line, orthoFrustum, fromClipMatrixNorms, rawPlanes, orthoClipM,
      orthoMatrix, orthoNorms, Frustum.is_point_in, dot4, toH,
      List.zipWith_cons_cons, List.zipWith_nil_right, List.zipWith_nil_left]
  · norm_num [clip_line, orthoFrustum, fromClipMatrixNorms, rawPlanes, orthoClipM,
      orthoMatrix, orthoNorms, Frustum.is_point_in, Frustum.is_point_in_or_on,
      segIsects, points_on_frustum, plane_segment_directed_intersection, sortAsc,
      insertAsc, lastOpt, lerp, dot3, dot4, V4.xyz, toH, epsQ,
      List.filterMap_cons, List.filterMap_nil, List.foldr_cons, List.foldr_nil,
      List.zipWith_cons_cons, List.zipWith_nil_right, List.zipWith_nil_left]

/-- Characterization of `visitPlanes`: it returns false exactly when some
plane tests Outside and every plane before it tests Inside. -/
theorem visitPlanes_eq_false_iff (bb : AABBQ) :
    ∀ ps : List V4,
      visitPlanes bb ps = false ↔
        ∃ pre pl suf, ps = pre ++ pl :: suf ∧
          box_plane_intersection bb pl = .Outside ∧
          ∀ p ∈ pre, box_plane_intersection bb p = .Inside := by
  intro ps
  induction ps with
  | nil =>
    simp only [visitPlanes]
    constructor
    · intro h; exact absurd h (by simp)
    · rintro ⟨pre, pl, suf, h, -, -⟩
      exact absurd h (by simp)
  | cons p rest ih =>
    constructor
    · intro h
      rw [visitPlanes] at h
      rcases hbp : box_plane_intersection bb p with _ | _ | _
      · rw [hbp] at h
        rcases ih.mp h with ⟨pre, pl, suf, heq, hout, hpre⟩
        refine ⟨p :: pre, pl, suf, by simp [heq], hout, ?_⟩
        intro q hq
        rcases List.mem_cons.mp hq with hq | hq
        · rw [hq]; exact hbp
        · exact hpre q hq
      · rw [hbp] at h; exact absurd h (by simp)
      · exact ⟨[], p, rest, rfl, hbp, by simp⟩
    · rintro ⟨pre, pl, suf, heq, hout, hpre⟩
      rcases pre with _ | ⟨q, pre⟩
      · simp only [List.nil_append] at heq
        injection heq with h1 h2
        subst h1
        rw [visitPlanes, hout]
      · simp only [List.cons_append, List.cons.injEq] at heq
        have hq : box_plane_intersection bb p = .Inside := by
          rw [heq.1]; exact hpre q (by simp)
        rw [visitPlanes, hq]
        exact ih.mpr ⟨pre, pl, suf, heq.2, hout, fun r hr => hpre r (by simp [hr])⟩

/-- C5 (amended): `is_aabb_visible` rejects a box exactly when some
frustum plane reports it entirely outside and every plane before it (in
the fixed Left, Right, Bottom, Top, Near, Far order) reports it entirely
inside; in particular a box outside no plane is reported visible, and a
straddle encountered before any outside plane reports visible
immediately. -/
theorem is_aabb_visible_eq_false_iff (F : Frustum) (bb : AABBQ) :
    is_aabb_visible F bb = false ↔
      ∃ pre pl suf, F.planes = pre ++ pl :: suf ∧
        box_plane_intersection bb pl = .Outside ∧
        ∀ p ∈ pre, box_plane_intersection bb p = .Inside :=
  visitPlanes_eq_false_iff bb F.planes

/-- C5 counterexample: `boxC5` projects entirely outside the Bottom plane
of the orthographic frustum, yet `is_aabb_visible` returns true, because
the Left plane (tested earlier) straddles the box and the loop returns
immediately.  The claim "outside some plane implies rejected" is false on
the code. -/
theorem is_aabb_visible_outside_plane_cx :
    (⟨0, 1, 0, 2⟩ : V4) ∈ orthoFrustum.planes ∧
    box_plane_intersection boxC5 ⟨0, 1, 0, 2⟩ = .Outside ∧
    is_aabb_visible orthoFrustum boxC5 = true := by
  refine ⟨?_, ?_, ?_⟩
  · norm_num [orthoFrustum, fromClipMatrixNorms, rawPlanes, orthoClipM,
      orthoMatrix, orthoNorms, List.zipWith_cons_cons, List.zipWith_nil_right,
      List.zipWith_nil_left]
  · norm_num [box_plane_intersection, boxC5, AABBQ.center, AABBQ.half_extents,
      V3.abs3, dot3, V4.xyz]
  · norm_num [is_aabb_visible, visitPlanes, orthoFrustum, fromClipMatrixNorms,
      rawPlanes, orthoClipM, orthoMatrix, orthoNorms, box_plane_intersection,
      boxC5, AABBQ.center, AABBQ.half_extents, V3.abs3, dot3, V4.xyz,
      List.zipWith_cons_cons, List.zipWith_nil_right, List.zipWith_nil_left]

/-- C7 (amended): on a (Started, not visible) transition the accumulator
state becomes Empty; when the Started state holds a single dangling point,
the length-filtered emission discards it, and the point never reaches the
output; when it holds a carried-over path of two or more points, that path
is emitted. -/
theorem started_not_visible_step (path : RenderPath) (paths : List RenderPath) :
    (SegmentPathState.update (.Started path) none).1 = .Empty ∧
    (path.length = 1 →
      emitFinished paths (SegmentPathState.update (.Started path) none).2 = paths) ∧
    (1 < path.length →
      emitFinished paths (SegmentPathState.update (.Started path) none).2 =
        paths ++ [path]) := by
  refine ⟨rfl, ?_, ?_⟩
  · intro h
    simp [SegmentPathState.update, emitFinished, h]
  · intro h
    simp [SegmentPathState.update, emitFinished, h]

/-- C7 witness: a Started state holding the single point (0,0) transitions
to Empty on a not-visible sample and nothing is emitted. -/
theorem started_not_visible_step_witness :
    (SegmentPathState.update (.Started [⟨0, 0⟩]) none).1 = .Empty ∧
    emitFinished [] (SegmentPathState.update (.Started [⟨0, 0⟩]) none).2 = [] :=
  ⟨(started_not_visible_step [⟨0, 0⟩] []).1,
   (started_not_visible_step [⟨0, 0⟩] []).2.1 (by simp)⟩

/-- C7 counterexample: a (Started, not visible) transition does emit a
polyline when the Started state holds a carried-over two-point path, so
"no polyline is emitted to the output" is false on the code. -/
theorem started_not_visible_emits_cx :
    (SegmentPathState.update (.Started [⟨0, 0⟩, ⟨1, 0⟩]) none).1 = .Empty ∧
    emitFinished [] (SegmentPathState.update (.Started [⟨0, 0⟩, ⟨1, 0⟩]) none).2 =
      [[⟨0, 0⟩, ⟨1, 0⟩]] ∧
    ([[⟨0, 0⟩, ⟨1, 0⟩]] : List RenderPath) ≠ [] := by
  refine ⟨rfl, by simp [SegmentPathState.update, emitFinished], by simp⟩

/-- C1 (amended): a leaf visit of the occlusion visitor exits early with a
negative (occluded) result exactly when the ray TOI of the leaf bounding volume
is below the best cost so far and the ray intersection of the shape exists with
TOI strictly below the target TOI; no epsilon is subtracted from the
target, and the best-cost comparison involves the bounding volume TOI, not
the shape intersection TOI. -/
theorem occVisit_exit_iff (ray : RayQ) (targetToi maxToi best : ℚ) (bv : AABBQ)
    (shape : ShapeM) :
    occVisit ray targetToi maxToi best bv (some shape) = .ExitEarly (some false) ↔
      ∃ rt, aabbToi bv ray maxToi = some rt ∧ rt < best ∧
        ∃ inter, shape.intersect ray maxToi = some inter ∧ inter.t < targetToi := by
  unfold occVisit
  rcases h : aabbToi bv ray maxToi with _ | rt
  · simp
  · simp only [Option.some.injEq]
    by_cases hb : rt < best
    · rcases hi : shape.intersect ray maxToi with _ | inter
      · simp [hb, hi]
      · by_cases ht : inter.t < targetToi
        · simp [hb, hi, ht]
        · simp [hb, hi, ht]
    · simp [hb]

/-- C1 counterexample: with target TOI 1, a shape whose intersection TOI
is exactly `1 - 1e-5` (so not strictly below target minus epsilon) still
makes the visitor exit early with an occluded result, because the code
compares `result.t < target_toi` with no epsilon. -/
theorem occVisit_no_epsilon_cx :
    shapeC1.intersect rayC1 10 = some interC1 ∧
    ¬ (interC1.t < 1 - epsQ) ∧
    occVisit rayC1 1 10 1000 bvC1 (some shapeC1) = .ExitEarly (some false) := by
  refine ⟨rfl, ?_, ?_⟩
  · norm_num [interC1, epsQ]
  · norm_num [occVisit, aabbToi, bvC1, rayC1, shapeC1, interC1,
      List.foldl_cons, List.foldl_nil]

/-- C6 counterexample: the segment (5,0,0)-(6,0,0) has neither endpoint in
the orthographic frustum and zero on-frustum crossing points, yet
`clip_line` returns the recoverable Outside result instead of aborting, so
"any count other than 2 is fatal" is false on the code. -/
theorem clip_line_outside_count_zero_cx :
    ¬ orthoFrustum.is_point_in ⟨5, 0, 0⟩ ∧
    ¬ orthoFrustum.is_point_in ⟨6, 0, 0⟩ ∧
    (points_on_frustum orthoFrustum ⟨5, 0, 0⟩ ⟨6, 0, 0⟩).length = 0 ∧
    clip_line orthoFrustum ⟨5, 0, 0⟩ ⟨6, 0, 0⟩ = .ok .Outside := by
  refine ⟨?_, ?_, ?_, ?_⟩
  · norm_num [orthoFrustum, fromClipMatrixNorms, rawPlanes, orthoClipM,
      orthoMatrix, orthoNorms, Frustum.is_point_in, dot4, toH,
      List.zipWith_cons_cons, List.zipWith_nil_right, List.zipWith_nil_left]
  · norm_num [orthoFrustum, fromClipMatrixNorms, rawPlanes, orthoClipM,
      orthoMatrix, orthoNorms, Frustum.is_point_in, dot4, toH,
      List.zipWith_cons_cons, List.zipWith_nil_right, List.zipWith_nil_left]
  · norm_num [orthoFrustum, fromClipMatrixNorms, rawPlanes, orthoClipM,
      orthoMatrix, orthoNorms, Frustum.is_point_in_or_on,
      segIsects, points_on_frustum, plane_segment_directed_intersection, sortAsc,
      insertAsc, lerp, dot3, dot4, V4.xyz, toH, epsQ,
      List.filterMap_cons, List.filterMap_nil, List.foldr_cons, List.foldr_nil,
      List.zipWith_cons_cons, List.zipWith_nil_right, List.zipWith_nil_left]
  · norm_num [clip_line, orthoFrustum, fromClipMatrixNorms, rawPlanes, orthoClipM,
      orthoMatrix, orthoNorms, Frustum.is_point_in, Frustum.is_point_in_or_on,
      segIsects, points_on_frustum, plane_segment_directed_intersection, sortAsc,
      insertAsc, lastOpt, lerp, dot3, dot4, V4.xyz, toH, epsQ,
      List.filterMap_cons, List.filterMap_nil, List.foldr_cons, List.foldr_nil,
      List.zipWith_cons_cons, List.zipWith_nil_right, List.zipWith_nil_left]

/-- C6 (amended): when neither endpoint is inside the frustum, exactly two
on-frustum crossing points yield Partial/Infix with those two points; a
count of zero or one yields the recoverable Outside result; only a count
greater than two is a fatal invariant violation. -/
theorem clip_line_both_outside (F : Frustum) (p0 p1 : V3)
    (h0 : ¬ F.is_point_in p0) (h1 : ¬ F.is_point_in p1) :
    (∀ a b, points_on_frustum F p0 p1 = [a, b] →
      clip_line F p0 p1 = .ok (.PartialRes .InfixPart a b)) ∧
    ((points_on_frustum F p0 p1).length ≤ 1 →
      clip_line F p0 p1 = .ok .Outside) ∧
    (2 < (points_on_frustum F p0 p1).length →
      clip_line F p0 p1 = .error .tooMany) := by
  unfold clip_line
  rw [if_neg (by tauto), if_neg h0, if_neg h1]
  refine ⟨?_, ?_, ?_⟩
  · intro a b hab
    rw [hab]
  · intro hlen
    rcases hp : points_on_frustum F p0 p1 with _ | ⟨x, _ | ⟨y, rest⟩⟩
    · rfl
    · rfl
    · rw [hp] at hlen; simp at hlen
  · intro hlen
    rcases hp : points_on_frustum F p0 p1 with _ | ⟨x, _ | ⟨y, _ | ⟨z, rest⟩⟩⟩
    · rw [hp] at hlen; simp at hlen
    · rw [hp] at hlen; simp at hlen
    · rw [hp] at hlen; simp at hlen
    · rfl

/-- C6 witness: the amended behavior at the concrete both-outside segment
(5,0,0)-(6,0,0), whose on-frustum count is zero: the result is Outside. -/
theorem clip_line_both_outside_witness :
    (¬ orthoFrustum.is_point_in ⟨5, 0, 0⟩) ∧
    (¬ orthoFrustum.is_point_in ⟨6, 0, 0⟩) ∧
    ((points_on_frustum orthoFrustum ⟨5, 0, 0⟩ ⟨6, 0, 0⟩).length ≤ 1 →
      clip_line orthoFrustum ⟨5, 0, 0⟩ ⟨6, 0, 0⟩ = .ok .Outside) := by
  have h0 : ¬ orthoFrustum.is_point_in ⟨5, 0, 0⟩ := by
    norm_num [orthoFrustum, fromClipMatrixNorms, rawPlanes, orthoClipM,
      orthoMatrix, orthoNorms, Frustum.is_point_in, dot4, toH,
      List.zipWith_cons_cons, List.zipWith_nil_right, List.zipWith_nil_left]
  have h1 : ¬ orthoFrustum.is_point_in ⟨6, 0, 0⟩ := by
    norm_num [orthoFrustum, fromClipMatrixNorms, rawPlanes, orthoClipM,
      orthoMatrix, orthoNorms, Frustum.is_point_in, dot4, toH,
      List.zipWith_cons_cons, List.zipWith_nil_right, List.zipWith_nil_left]
  exact ⟨h0, h1, (clip_line_both_outside orthoFrustum ⟨5, 0, 0⟩ ⟨6, 0, 0⟩ h0 h1).2.1⟩

/-- Inversion for `clip_line`: an Inside result forces both endpoints
inside and returns the endpoints themselves. -/
theorem clip_line_ok_inside (F : Frustum) (p0 p1 a b : V3)
    (h : clip_line F p0 p1 = .ok (.Inside a b)) :
    F.is_point_in p1 ∧ a = p0 ∧ b = p1 := by
  unfold clip_line at h
  by_cases h01 : F.is_point_in p0 ∧ F.is_point_in p1
  · rw [if_pos h01] at h
    injection h with h
    injection h with h1 h2
    exact ⟨h01.2, h1.symm, h2.symm⟩
  · rw [if_neg h01] at h
    by_cases h0 : F.is_point_in p0
    · rw [if_pos h0] at h
      rcases hs : segIsects F p0 p1 with _ | ⟨t, ts⟩ <;> rw [hs] at h <;> simp at h
    · rw [if_neg h0] at h
      by_cases h1 : F.is_point_in p1
      · rw [if_pos h1] at h
        rcases hs : lastOpt (segIsects F p0 p1) with _ | t <;> rw [hs] at h <;>
          simp at h
      · rw [if_neg h1] at h
        rcases hs : points_on_frustum F p0 p1 with _ | ⟨x, _ | ⟨y, _ | ⟨z, rest⟩⟩⟩ <;>
          rw [hs] at h <;> simp at h

/-- Inversion for `clip_line`: a Suffix result forces the first endpoint
outside and the second inside, and its second clip point is the second
endpoint. -/
theorem clip_line_ok_suffix (F : Frustum) (p0 p1 a b : V3)
    (h : clip_line F p0 p1 = .ok (.PartialRes .SuffixPart a b)) :
    ¬ F.is_point_in p0 ∧ F.is_point_in p1 ∧ b = p1 := by
  unfold clip_line at h
  by_cases h01 : F.is_point_in p0 ∧ F.is_point_in p1
  · rw [if_pos h01] at h; simp at h
  · rw [if_neg h01] at h
    by_cases h0 : F.is_point_in p0
    · rw [if_pos h0] at h
      rcases hs : segIsects F p0 p1 with _ | ⟨t, ts⟩ <;> rw [hs] at h <;> simp at h
    · rw [if_neg h0] at h
      by_cases h1 : F.is_point_in p1
      · rw [if_pos h1] at h
        rcases hs : lastOpt (segIsects F p0 p1) with _ | t <;> rw [hs] at h
        · simp at h
        · simp only [Except.ok.injEq, ClipRes.PartialRes.injEq] at h
          exact ⟨h0, h1, h.2.2.symm⟩
      · rw [if_neg h1] at h
        rcases hs : points_on_frustum F p0 p1 with _ | ⟨x, _ | ⟨y, _ | ⟨z, rest⟩⟩⟩ <;>
          rw [hs] at h <;> simp at h

/-- When the first endpoint is inside the frustum, `clip_line` returns
Inside, a Prefix result, or the indexing panic: never Outside,
Infix or Suffix. -/
theorem clip_line_of_in0 (F : Frustum) (p0 p1 : V3) (h0 : F.is_point_in p0) :
    clip_line F p0 p1 = .ok (.Inside p0 p1) ∨
    (∃ c, clip_line F p0 p1 = .ok (.PartialRes .PrefixPart p0 c)) ∨
    clip_line F p0 p1 = .error .indexOut := by
  unfold clip_line
  by_cases h1 : F.is_point_in p1
  · left; rw [if_pos ⟨h0, h1⟩]
  · right
    rw [if_neg (by tauto), if_pos h0]
    rcases hs : segIsects F p0 p1 with _ | ⟨t, ts⟩
    · right; rfl
    · left; exact ⟨lerp p0 p1 t, rfl⟩

/-- Invariant preservation for the `clip_path` loop: as long as a
non-empty accumulator implies the previous point is inside the frustum,
none of the three assertions can fail. -/
theorem clipPathGo_no_assert_fail (F : Frustum) :
    ∀ (rest : List V3) (prev : V3) (acc : Path3) (out : List Path3),
      (acc ≠ [] → F.is_point_in prev) →
      clipPathGo F prev rest acc out ≠ .error .assertOutsideFail ∧
      clipPathGo F prev rest acc out ≠ .error .assertInfixFail ∧
      clipPathGo F prev rest acc out ≠ .error .assertSuffixFail := by
  intro rest
  induction rest with
  | nil =>
    intro prev acc out hinv
    rw [clipPathGo]
    split_ifs <;> simp
  | cons q rest ih =>
    intro prev acc out hinv
    rw [clipPathGo]
    rcases hres : clip_line F prev q with e | res
    · simp [hres]
    · rcases res with _ | ⟨a, b⟩ | ⟨k, a, b⟩
      · -- Outside
        rcases acc with _ | ⟨a0, acc0⟩
        · simpa [hres] using ih q [] out (by simp)
        · have h0 := hinv (by simp)
          rcases clip_line_of_in0 F prev q h0 with hc | ⟨c, hc⟩ | hc <;>
            rw [hres] at hc <;> simp at hc
      · -- Inside
        simp only [hres]
        exact ih q _ out fun _ => (clip_line_ok_inside F prev q a b hres).1
      · rcases k
        · -- Prefix
          simp only [hres]
          exact ih q [] _ (by simp)
        · -- Suffix
          rcases acc with _ | ⟨a0, acc0⟩
          · simpa [hres] using
              ih q [a, b] out fun _ => (clip_line_ok_suffix F prev q a b hres).2.1
          · have h0 := hinv (by simp)
            rcases clip_line_of_in0 F prev q h0 with hc | ⟨c, hc⟩ | hc <;>
              rw [hres] at hc <;> simp at hc
        · -- Infix
          rcases acc with _ | ⟨a0, acc0⟩
          · simpa [hres] using ih q [] (out ++ [[a, b]]) (by simp)
          · have h0 := hinv (by simp)
            rcases clip_line_of_in0 F prev q h0 with hc | ⟨c, hc⟩ | hc <;>
              rw [hres] at hc <;> simp at hc

/-- C8: for every input path, `clip_path` never fails the assertion in the
Outside branch (the accumulator is always empty there), nor the assertions
in the Infix and Suffix branches. -/
theorem clip_path_never_assert_fail (F : Frustum) (path : Path3) :
    clip_path F path ≠ .error .assertOutsideFail ∧
    clip_path F path ≠ .error .assertInfixFail ∧
    clip_path F path ≠ .error .assertSuffixFail := by
  rcases path with _ | ⟨p, _ | ⟨q, rest⟩⟩
  · simp [clip_path]
  · simp [clip_path]
  · simpa [clip_path] using clipPathGo_no_assert_fail F (q :: rest) p [] [] (by simp)

/-- C10: a degenerate path with fewer than two points is clipped to the
empty list, and `render_path` returns the empty list for it. -/
theorem render_path_degenerate (vis : V3 → V3 → Bool) (cam : Camera) (path : Path3)
    (h : path.length < 2) :
    clip_path cam.frustum path = .ok [] ∧ render_path vis cam path = .ok [] := by
  rcases path with _ | ⟨p, _ | ⟨q, rest⟩⟩
  · exact ⟨rfl, rfl⟩
  · exact ⟨rfl, rfl⟩
  · simp only [List.length_cons] at h; omega

/-- C10 witness: the one-point path through the origin renders to an empty
output under the orthographic camera. -/
theorem render_path_degenerate_witness :
    ([(⟨0, 0, 0⟩ : V3)] : Path3).length < 2 ∧
    (clip_path orthoCam.frustum [⟨0, 0, 0⟩] = .ok [] ∧
      render_path (fun _ _ => true) orthoCam [⟨0, 0, 0⟩] = .ok []) :=
  ⟨by simp,
   render_path_degenerate (fun _ _ => true) orthoCam [⟨0, 0, 0⟩] (by simp)⟩

/-- The search of `ceilSqrtGo` returns a value whose square dominates `q`
provided the fuel reaches one. -/
theorem ceilSqrtGo_le_sq (q : ℚ) :
    ∀ (fuel n : ℕ), q ≤ (((n + fuel : ℕ) : ℚ)) ^ 2 →
      q ≤ ((ceilSqrtGo q fuel n : ℕ) : ℚ) ^ 2 := by
  intro fuel
  induction fuel with
  | zero => intro n h; simpa [ceilSqrtGo] using h
  | succ fuel ih =>
    intro n h
    rw [ceilSqrtGo]
    split_ifs with hq
    · exact hq
    · apply ih (n + 1)
      have e : (n + 1) + fuel = n + (fuel + 1) := by omega
      rw [e]
      exact h

/-- Every value below the result of `ceilSqrtGo` fails the bound. -/
theorem ceilSqrtGo_min (q : ℚ) :
    ∀ (fuel n m : ℕ), n ≤ m → m < ceilSqrtGo q fuel n → ¬ q ≤ (m : ℚ) ^ 2 := by
  intro fuel
  induction fuel with
  | zero => intro n m hnm hlt; rw [ceilSqrtGo] at hlt; omega
  | succ fuel ih =>
    intro n m hnm hlt
    rw [ceilSqrtGo] at hlt
    split_ifs at hlt with hq
    · omega
    · rcases Nat.eq_or_lt_of_le hnm with rfl | hlt2
      · exact hq
      · exact ih (n + 1) m hlt2 hlt

/-- The fuel `q.num.toNat + 1` suffices: its square dominates `q`. -/
theorem rat_le_num_succ_sq (q : ℚ) : q ≤ ((q.num.toNat + 1 : ℕ) : ℚ) ^ 2 := by
  rcases le_or_lt q 0 with h | h
  · have hp : (0 : ℚ) ≤ ((q.num.toNat + 1 : ℕ) : ℚ) ^ 2 := by positivity
    linarith
  · have hnum : (0 : ℤ) < q.num := Rat.num_pos.mpr h
    have hden : (1 : ℚ) ≤ (q.den : ℚ) := by exact_mod_cast q.den_pos
    have h1 : q ≤ (q.num : ℚ) := by
      conv_lhs => rw [← Rat.num_div_den q]
      exact div_le_self (by exact_mod_cast hnum.le) hden
    have h2 : (q.num : ℚ) = ((q.num.toNat : ℕ) : ℚ) := by
      exact_mod_cast (Int.toNat_of_nonneg hnum.le).symm
    have h3 : ((q.num.toNat : ℕ) : ℚ) ≤ ((q.num.toNat + 1 : ℕ) : ℚ) ^ 2 := by
      have hk : (q.num.toNat : ℕ) ≤ (q.num.toNat + 1) ^ 2 :=
        le_trans (Nat.le_succ _) (Nat.le_self_pow (by norm_num) _)
      exact_mod_cast hk
    linarith [h1, h2 ▸ h1]

/-- `ceilSqrtQ q` squared dominates `q`. -/
theorem ceilSqrtQ_le_sq (q : ℚ) : q ≤ ((ceilSqrtQ q : ℕ) : ℚ) ^ 2 := by
  apply ceilSqrtGo_le_sq
  simpa using rat_le_num_succ_sq q

/-- `ceilSqrtQ q` is minimal among naturals whose square dominates `q`. -/
theorem ceilSqrtQ_min (q : ℚ) (m : ℕ) (h : q ≤ (m : ℚ) ^ 2) : ceilSqrtQ q ≤ m := by
  by_contra hc
  push_neg at hc
  exact ceilSqrtGo_min q _ 0 m (Nat.zero_le m) hc h

/-- Unfolding of `split_segment_adaptive` in the subdividing branch. -/
theorem split_segment_adaptive_eq_pos (cam : Camera) (p0 p1 : V3)
    (hgt : cam.resolution * cam.resolution <
      normSq2 ((cam.project_3d p0).xy - (cam.project_3d p1).xy)) :
    (split_segment_adaptive cam p0 p1).2 =
      (List.range (ceilSqrtQ
          (normSq2 ((cam.project_3d p0).xy - (cam.project_3d p1).xy) /
            (cam.resolution * cam.resolution)) + 1)).map
        (fun i : ℕ => cam.project_3d p0 +
          ((i : ℚ) / ((ceilSqrtQ
            (normSq2 ((cam.project_3d p0).xy - (cam.project_3d p1).xy) /
              (cam.resolution * cam.resolution)) : ℕ) : ℚ)) •
            (cam.project_3d p1 - cam.project_3d p0)) := by
  simp only [split_segment_adaptive]
  rw [if_pos hgt]

/-- Unfolding of `split_segment_adaptive` in the two-point branch. -/
theorem split_segment_adaptive_eq_neg (cam : Camera) (p0 p1 : V3)
    (hle : normSq2 ((cam.project_3d p0).xy - (cam.project_3d p1).xy) ≤
      cam.resolution * cam.resolution) :
    (split_segment_adaptive cam p0 p1).2 =
      [cam.project_3d p0, cam.project_3d p1] := by
  simp only [split_segment_adaptive]
  rw [if_neg (not_lt.mpr hle)]

/-- The world samples are the unprojected projected samples. -/
theorem split_segment_adaptive_fst (cam : Camera) (p0 p1 : V3) :
    (split_segment_adaptive cam p0 p1).1 =
      (split_segment_adaptive cam p0 p1).2.map (fun p => cam.unproject p) := rfl

/-- C4: for a camera with positive resolution r, when the projected
endpoints are at squared screen distance d2 exceeding r^2 (i.e. screen
distance L exceeding r), the adaptive splitter produces exactly n+1 sample
points equally spaced in NDC, where n is the least natural with L <= n*r
(exactly ceil(L/r), characterized without square roots by d2 <= n^2*r^2
minimally); when L is at most r it produces exactly the two projected
endpoints. -/
theorem split_segment_adaptive_count (cam : Camera) (p0 p1 : V3)
    (hr : 0 < cam.resolution) :
    (cam.resolution * cam.resolution <
        normSq2 ((cam.project_3d p0).xy - (cam.project_3d p1).xy) →
      ∃ n : ℕ, 0 < n ∧
        (split_segment_adaptive cam p0 p1).2.length = n + 1 ∧
        (split_segment_adaptive cam p0 p1).1.length = n + 1 ∧
        normSq2 ((cam.project_3d p0).xy - (cam.project_3d p1).xy) ≤
          (n : ℚ) ^ 2 * (cam.resolution * cam.resolution) ∧
        (∀ m : ℕ,
          normSq2 ((cam.project_3d p0).xy - (cam.project_3d p1).xy) ≤
            (m : ℚ) ^ 2 * (cam.resolution * cam.resolution) → n ≤ m) ∧
        (split_segment_adaptive cam p0 p1).2 =
          (List.range (n + 1)).map (fun i : ℕ =>
            cam.project_3d p0 +
              ((i : ℚ) / (n : ℚ)) • (cam.project_3d p1 - cam.project_3d p0))) ∧
    (normSq2 ((cam.project_3d p0).xy - (cam.project_3d p1).xy) ≤
        cam.resolution * cam.resolution →
      (split_segment_adaptive cam p0 p1).2 =
        [cam.project_3d p0, cam.project_3d p1] ∧
      (split_segment_adaptive cam p0 p1).1.length = 2) := by
  have hrr : (0 : ℚ) < cam.resolution * cam.resolution := by positivity
  constructor
  · intro hgt
    have hsplit := split_segment_adaptive_eq_pos cam p0 p1 hgt
    set d2 := normSq2 ((cam.project_3d p0).xy - (cam.project_3d p1).xy) with hd2
    set n := ceilSqrtQ (d2 / (cam.resolution * cam.resolution)) with hn
    have hle_sq := ceilSqrtQ_le_sq (d2 / (cam.resolution * cam.resolution))
    have hq1 : 1 < d2 / (cam.resolution * cam.resolution) :=
      (one_lt_div hrr).mpr hgt
    have hnpos : 0 < n := by
      rcases Nat.eq_zero_or_pos n with h0 | h
      · rw [← hn] at hle_sq
        rw [h0] at hle_sq
        norm_num at hle_sq
        linarith
      · exact h
    refine ⟨n, hnpos, ?_, ?_, ?_, ?_, hsplit⟩
    · rw [hsplit]; simp
    · rw [split_segment_adaptive_fst, hsplit]; simp
    · have := (div_le_iff₀ hrr).mp hle_sq
      rw [← hn] at this
      exact this
    · intro m hm
      rw [hn]
      exact ceilSqrtQ_min _ m ((div_le_iff₀ hrr).mpr hm)
  · intro hle
    have hsplit := split_segment_adaptive_eq_neg cam p0 p1 hle
    refine ⟨hsplit, ?_⟩
    rw [split_segment_adaptive_fst, hsplit]
    simp

/-- C4 witness: the orthographic camera with resolution 1/2 and the
segment (-1,0,0)-(1,0,0), whose projected screen distance is 1. -/
theorem split_segment_adaptive_count_witness :
    (0 < orthoCam.resolution) ∧
    ((orthoCam.resolution * orthoCam.resolution <
        normSq2 ((orthoCam.project_3d ⟨-1, 0, 0⟩).xy -
          (orthoCam.project_3d ⟨1, 0, 0⟩).xy) →
      ∃ n : ℕ, 0 < n ∧
        (split_segment_adaptive orthoCam ⟨-1, 0, 0⟩ ⟨1, 0, 0⟩).2.length = n + 1 ∧
        (split_segment_adaptive orthoCam ⟨-1, 0, 0⟩ ⟨1, 0, 0⟩).1.length = n + 1 ∧
        normSq2 ((orthoCam.project_3d ⟨-1, 0, 0⟩).xy -
            (orthoCam.project_3d ⟨1, 0, 0⟩).xy) ≤
          (n : ℚ) ^ 2 * (orthoCam.resolution * orthoCam.resolution) ∧
        (∀ m : ℕ,
          normSq2 ((orthoCam.project_3d ⟨-1, 0, 0⟩).xy -
              (orthoCam.project_3d ⟨1, 0, 0⟩).xy) ≤
            (m : ℚ) ^ 2 * (orthoCam.resolution * orthoCam.resolution) → n ≤ m) ∧
        (split_segment_adaptive orthoCam ⟨-1, 0, 0⟩ ⟨1, 0, 0⟩).2 =
          (List.range (n + 1)).map (fun i : ℕ =>
            orthoCam.project_3d ⟨-1, 0, 0⟩ +
              ((i : ℚ) / (n : ℚ)) •
                (orthoCam.project_3d ⟨1, 0, 0⟩ -
                  orthoCam.project_3d ⟨-1, 0, 0⟩))) ∧
    (normSq2 ((orthoCam.project_3d ⟨-1, 0, 0⟩).xy -
          (orthoCam.project_3d ⟨1, 0, 0⟩).xy) ≤
        orthoCam.resolution * orthoCam.resolution →
      (split_segment_adaptive orthoCam ⟨-1, 0, 0⟩ ⟨1, 0, 0⟩).2 =
        [orthoCam.project_3d ⟨-1, 0, 0⟩, orthoCam.project_3d ⟨1, 0, 0⟩] ∧
      (split_segment_adaptive orthoCam ⟨-1, 0, 0⟩ ⟨1, 0, 0⟩).1.length = 2)) :=
  ⟨by norm_num [orthoCam],
   split_segment_adaptive_count orthoCam ⟨-1, 0, 0⟩ ⟨1, 0, 0⟩
     (by norm_num [orthoCam])⟩

/-- The emission step only ever adds polylines with at least two points. -/
theorem emitFinished_minlen (paths : List RenderPath) (fin : Option RenderPath)
    (h : ∀ rp ∈ paths, 2 ≤ rp.length) :
    ∀ rp ∈ emitFinished paths fin, 2 ≤ rp.length := by
  rcases fin with _ | fp
  · simpa [emitFinished] using h
  · simp only [emitFinished]
    split_ifs with hlen
    · intro rp hrp
      rcases List.mem_append.mp hrp with hrp | hrp
      · exact h rp hrp
      · rw [List.mem_singleton.mp hrp]
        omega
    · exact h

/-- The render sample loop only ever adds polylines with at least two
points. -/
theorem renderLoop_minlen (vis : V3 → V3 → Bool) :
    ∀ (samples : List (V3 × V3)) (st : SegmentPathState) (paths : List RenderPath),
      (∀ rp ∈ paths, 2 ≤ rp.length) →
      ∀ rp ∈ (renderLoop vis samples st paths).1, 2 ≤ rp.length := by
  intro samples
  induction samples with
  | nil => intro st paths h; simpa [renderLoop] using h
  | cons s rest ih =>
    intro st paths h
    rcases s with ⟨pt, projPt⟩
    rw [renderLoop]
    exact ih _ _ (emitFinished_minlen _ _ h)

/-- `render_segment_adaptive` only ever adds polylines with at least two
points. -/
theorem render_segment_adaptive_minlen (vis : V3 → V3 → Bool) (cam : Camera)
    (p0 p1 : V3) (paths : List RenderPath) (curr : Option RenderPath)
    (h : ∀ rp ∈ paths, 2 ≤ rp.length) :
    ∀ rp ∈ (render_segment_adaptive vis cam p0 p1 paths curr).1, 2 ≤ rp.length := by
  simp only [render_segment_adaptive]
  exact renderLoop_minlen vis _ _ _ h

/-- The per-clipped-path segment loop only ever adds polylines with at
least two points. -/
theorem renderSegments_minlen (vis : V3 → V3 → Bool) (cam : Camera) :
    ∀ (rest : List V3) (prev : V3) (paths : List RenderPath)
      (curr : Option RenderPath),
      (∀ rp ∈ paths, 2 ≤ rp.length) →
      ∀ rp ∈ (renderSegments vis cam prev rest paths curr).1, 2 ≤ rp.length := by
  intro rest
  induction rest with
  | nil => intro prev paths curr h; simpa [renderSegments] using h
  | cons q rest ih =>
    intro prev paths curr h
    rw [renderSegments]
    exact ih _ _ _ (render_segment_adaptive_minlen vis cam _ _ _ _ h)

/-- `renderClipped` only ever adds polylines with at least two points,
including at the final flush. -/
theorem renderClipped_minlen (vis : V3 → V3 → Bool) (cam : Camera)
    (cp : Path3) (all : List RenderPath) (h : ∀ rp ∈ all, 2 ≤ rp.length) :
    ∀ rp ∈ renderClipped vis cam all cp, 2 ≤ rp.length := by
  rcases cp with _ | ⟨x, rest⟩
  · simpa [renderClipped] using h
  · rw [renderClipped]
    have hseg := renderSegments_minlen vis cam rest x all none h
    rcases hres : (renderSegments vis cam x rest all none).2 with _ | p
    · exact hseg
    · dsimp only
      split_ifs with h2
      · intro rp hrp
        rcases List.mem_append.mp hrp with hrp | hrp
        · exact hseg rp hrp
        · rw [List.mem_singleton.mp hrp]
          exact h2
      · exact hseg

/-- The fold of `renderClipped` over the clipped paths preserves the
two-point minimum. -/
theorem foldl_renderClipped_minlen (vis : V3 → V3 → Bool) (cam : Camera) :
    ∀ (clipped : List Path3) (all : List RenderPath),
      (∀ rp ∈ all, 2 ≤ rp.length) →
      ∀ rp ∈ clipped.foldl (renderClipped vis cam) all, 2 ≤ rp.length := by
  intro clipped
  induction clipped with
  | nil => intro all h; simpa using h
  | cons cp rest ih =>
    intro all h
    rw [List.foldl_cons]
    exact ih _ (renderClipped_minlen vis cam cp all h)

/-- C9: every polyline produced by `Scene::render_path` has at least two
points: polylines emitted when a visible run ends pass the more-than-one
filter, and the final flushed accumulator passes the at-least-two
filter. -/
theorem render_path_minlen (vis : V3 → V3 → Bool) (cam : Camera) (path : Path3)
    (out : List RenderPath) (h : render_path vis cam path = .ok out) :
    ∀ rp ∈ out, 2 ≤ rp.length := by
  unfold render_path at h
  rcases hc : clip_path cam.frustum path with e | clipped
  · rw [hc] at h; exact absurd h (by simp)
  · rw [hc] at h
    injection h with h
    subst h
    exact foldl_renderClipped_minlen vis cam clipped [] (by simp)

/-- C9 witness: a concrete render of the segment (-1,0,0)-(1,0,0) under
the coarse orthographic camera with every point visible produces one
polyline with exactly two points. -/
theorem render_path_minlen_witness :
    render_path (fun _ _ => true) orthoCamCoarse [⟨-1, 0, 0⟩, ⟨1, 0, 0⟩] =
      .ok [[⟨-1/2, 0⟩, ⟨1/2, 0⟩]] ∧
    ∀ rp ∈ [[(⟨-1/2, 0⟩ : P2), ⟨1/2, 0⟩]], 2 ≤ rp.length := by
  have heval : render_path (fun _ _ => true) orthoCamCoarse [⟨-1, 0, 0⟩, ⟨1, 0, 0⟩] =
      .ok [[⟨-1/2, 0⟩, ⟨1/2, 0⟩]] := by
    norm_num [render_path, clip_path, clipPathGo, clip_line, renderClipped,
      renderSegments, render_segment_adaptive, renderLoop, split_segment_adaptive,
      SegmentPathState.update, SegmentPathState.into_path, emitFinished,
      Camera.project_3d, Camera.unproject, viewTransform, viewInvTransform,
      projTransformPoint, M3.mulVec, M3.transpose, M3.idm, M4.mulVec,
      orthoCamCoarse, orthoClipM, orthoClipMInv, orthoMatrix, orthoFrustum,
      fromClipMatrixNorms, rawPlanes, orthoNorms, Frustum.is_point_in,
      Frustum.is_point_in_or_on, segIsects, points_on_frustum,
      plane_segment_directed_intersection, sortAsc, insertAsc, lastOpt, lerp,
      dot3, dot4, V4.xyz, toH, V3.xy, normSq2, epsQ,
      List.filterMap_cons, List.filterMap_nil, List.foldr_cons, List.foldr_nil,
      List.foldl_cons, List.foldl_nil, List.zipWith_cons_cons,
      List.zipWith_nil_right, List.zipWith_nil_left, List.zip_cons_cons,
      List.zip_nil_right, List.zip_nil_left]
  exact ⟨heval, render_path_minlen _ _ _ _ heval⟩

/-- Extensionality for 3-vectors. -/
theorem V3.ext3 (a b : V3) (hx : a.x = b.x) (hy : a.y = b.y) (hz : a.z = b.z) :
    a = b := by
  cases a; cases b
  simp only [V3.mk.injEq]
  exact ⟨hx, hy, hz⟩

/-- Extensionality for 4-vectors. -/
theorem V4.ext4 (a b : V4) (hx : a.x = b.x) (hy : a.y = b.y) (hz : a.z = b.z)
    (hw : a.w = b.w) : a = b := by
  cases a; cases b
  simp only [V4.mk.injEq]
  exact ⟨hx, hy, hz, hw⟩

@[simp] theorem V4.smul_x (c : ℚ) (v : V4) : (c • v).x = c * v.x := rfl

@[simp] theorem V4.smul_y (c : ℚ) (v : V4) : (c • v).y = c * v.y := rfl

@[simp] theorem V4.smul_z (c : ℚ) (v : V4) : (c • v).z = c * v.z := rfl

@[simp] theorem V4.smul_w (c : ℚ) (v : V4) : (c • v).w = c * v.w := rfl

@[simp] theorem V3.add_x (a b : V3) : (a + b).x = a.x + b.x := rfl

@[simp] theorem V3.add_y (a b : V3) : (a + b).y = a.y + b.y := rfl

@[simp] theorem V3.add_z (a b : V3) : (a + b).z = a.z + b.z := rfl

@[simp] theorem V3.sub_x (a b : V3) : (a - b).x = a.x - b.x := rfl

@[simp] theorem V3.sub_y (a b : V3) : (a - b).y = a.y - b.y := rfl

@[simp] theorem V3.sub_z (a b : V3) : (a - b).z = a.z - b.z := rfl

/-- Composition law for the 3x3 product and the matrix-vector product. -/
theorem M3.mul3_mulVec (A B : M3) (v : V3) :
    (M3.mul A B).mulVec v = A.mulVec (B.mulVec v) := by
  apply V3.ext3 <;> simp [M3.mul, M3.mulVec, M3.transpose, dot3] <;> ring

/-- The identity 3x3 matrix acts as the identity. -/
theorem M3.idm3_mulVec (v : V3) : M3.idm.mulVec v = v := by
  apply V3.ext3 <;> simp [M3.idm, M3.mulVec, dot3]

/-- Composition law for the 4x4 product and the matrix-vector product. -/
theorem M4.mul4_mulVec (A B : M4) (v : V4) :
    (M4.mul A B).mulVec v = A.mulVec (B.mulVec v) := by
  apply V4.ext4 <;>
    simp [M4.mul, M4.mulVec, M4.c0, M4.c1, M4.c2, M4.c3, dot4] <;> ring

/-- The identity 4x4 matrix acts as the identity. -/
theorem M4.idm4_mulVec (v : V4) : M4.idm.mulVec v = v := by
  apply V4.ext4 <;> simp [M4.idm, M4.mulVec, dot4]

/-- The matrix-vector product commutes with scalar multiplication. -/
theorem M4.mulVec_smul (M : M4) (c : ℚ) (v : V4) :
    M.mulVec (c • v) = c • M.mulVec v := by
  apply V4.ext4 <;> simp [M4.mulVec, dot4] <;> ring

/-- Vector cancellation. -/
theorem V3.add_sub_cancel3 (a b : V3) : a + b - b = a := by
  apply V3.ext3 <;> simp

/-- Component form of the projective point transform. -/
theorem projTransformPoint_def (m : M4) (p : V3) :
    projTransformPoint m p =
      ⟨(m.mulVec (toH p)).x / (m.mulVec (toH p)).w,
       (m.mulVec (toH p)).y / (m.mulVec (toH p)).w,
       (m.mulVec (toH p)).z / (m.mulVec (toH p)).w⟩ := rfl

/-- C3: unprojection inverts projection.  The view rotation times its
transpose is the identity (true of every rotation matrix), the stored
projection inverse is a true inverse (nalgebra computes it from the
projection), and the point lies where the homogeneous w-coordinate of its
projection is nonzero, which holds throughout the valid depth range of the
frustum; then `unproject (project_3d p) = p` exactly over ℚ (the f64 code
achieves it within floating-point tolerance). -/
theorem unproject_project_3d (cam : Camera) (p : V3)
    (hR : M3.mul cam.R.transpose cam.R = M3.idm)
    (hP : M4.mul cam.Pinv cam.P = M4.idm)
    (hw : projW cam p ≠ 0) :
    cam.unproject (cam.project_3d p) = p := by
  unfold projW at hw
  unfold Camera.unproject Camera.project_3d
  have hinner : projTransformPoint cam.Pinv
      (projTransformPoint cam.P (viewTransform cam p)) = viewTransform cam p := by
    set u := viewTransform cam p with hu
    set v := cam.P.mulVec (toH u) with hv
    have h2 : projTransformPoint cam.P u = ⟨v.x / v.w, v.y / v.w, v.z / v.w⟩ := by
      simp only [projTransformPoint]
    have h1 : toH (⟨v.x / v.w, v.y / v.w, v.z / v.w⟩ : V3) = (v.w)⁻¹ • v := by
      refine V4.ext4 _ _ ?_ ?_ ?_ ?_
      · simp [toH, div_eq_inv_mul]
      · simp [toH, div_eq_inv_mul]
      · simp [toH, div_eq_inv_mul]
      · simp [toH, inv_mul_cancel₀ hw]
    have h3 : cam.Pinv.mulVec (toH (projTransformPoint cam.P u)) =
        (v.w)⁻¹ • toH u := by
      rw [h2, h1, M4.mulVec_smul, hv, ← M4.mul4_mulVec, hP, M4.idm4_mulVec]
    rw [projTransformPoint_def cam.Pinv, h3]
    refine V3.ext3 _ _ ?_ ?_ ?_ <;>
      simp only [V4.smul_x, V4.smul_y, V4.smul_z, V4.smul_w, toH, mul_one] <;>
      rw [div_eq_iff (inv_ne_zero hw)] <;> ring
  rw [hinner]
  unfold viewInvTransform viewTransform
  rw [V3.add_sub_cancel3, ← M3.mul3_mulVec, hR, M3.idm3_mulVec]

/-- C3 witness: the orthographic camera and the point (0,0,1), whose
projection has homogeneous w-coordinate 1, round-trips exactly. -/
theorem unproject_project_3d_witness :
    M3.mul orthoCam.R.transpose orthoCam.R = M3.idm ∧
    M4.mul orthoCam.Pinv orthoCam.P = M4.idm ∧
    projW orthoCam ⟨0, 0, 1⟩ ≠ 0 ∧
    orthoCam.unproject (orthoCam.project_3d ⟨0, 0, 1⟩) = ⟨0, 0, 1⟩ := by
  have hR : M3.mul orthoCam.R.transpose orthoCam.R = M3.idm := by
    norm_num [M3.mul, M3.transpose, M3.mulVec, M3.idm, dot3, orthoCam]
  have hP : M4.mul orthoCam.Pinv orthoCam.P = M4.idm := by
    norm_num [M4.mul, M4.c0, M4.c1, M4.c2, M4.c3, M4.mulVec, M4.idm, dot4,
      orthoCam, orthoClipM, orthoClipMInv, orthoMatrix]
  have hw : projW orthoCam ⟨0, 0, 1⟩ ≠ 0 := by
    norm_num [projW, orthoCam, orthoClipM, orthoMatrix, viewTransform,
      M3.mulVec, M3.idm, M4.mulVec, dot3, dot4, toH]
  exact ⟨hR, hP, hw, unproject_project_3d orthoCam ⟨0, 0, 1⟩ hR hP hw⟩
